import Mathlib

/-!
Shallow embedding of `swap.py` from SeqExchange: randomized swapping and
cross-contamination of sequences in a multiple sequence alignment.

Randomness is modelled by an explicit tape of natural-number draws: each
primitive (`random.sample`, `random.randint`, `random.randrange`) consumes
draws from the front of the tape.  Any concrete behaviour of the Python
program corresponds to some tape, and properties proved for every tape hold
for every state of the random source.  Fallible Python calls (a `ValueError`
from `random.sample` or `random.randint`, an `IndexError` from `[0]` on an
empty list) are modelled with `Except String`.
-/

namespace SeqExchange

/-- A tape of pseudo-random draws. -/
abbrev Tape := List Nat

/-- Take the next draw from the tape (0 if the tape is exhausted). -/
def nextDraw : Tape → Nat × Tape
  | [] => (0, [])
  | d :: rest => (d, rest)

/-- Core of `random.sample`: draw `k` elements without replacement from `l`,
each draw picking an index into the remaining elements. -/
def sampleGo {α : Type} : List α → Nat → Tape → List α × Tape
  | _, 0, tape => ([], tape)
  | l, k + 1, tape =>
    if h : l.length = 0 then ([], tape)
    else
      let (d, tape1) := nextDraw tape
      let i : Fin l.length := ⟨d % l.length, Nat.mod_lt d (Nat.pos_of_ne_zero h)⟩
      let (rest, tape2) := sampleGo (l.eraseIdx i.val) k tape1
      (l.get i :: rest, tape2)

/-- `random.sample(l, k)`: `k` distinct positions of `l`, chosen without
replacement; raises `ValueError` when `k` exceeds the population size. -/
def sample {α : Type} (l : List α) (k : Nat) (tape : Tape) :
    Except String (List α × Tape) :=
  if l.length < k then Except.error "Sample larger than population or is negative"
  else Except.ok (sampleGo l k tape)

/-- `random.randint(a, b)`: uniform draw from `[a, b]`; raises `ValueError`
on an empty range (`b < a`). -/
def randint (a b : Nat) (tape : Tape) : Except String (Nat × Tape) :=
  if b < a then Except.error "empty range in randint"
  else
    let (d, tape1) := nextDraw tape
    Except.ok (a + d % (b - a + 1), tape1)

/-- A sequence record of the alignment: `otu` (taxon label), `identifier`
(accession name), `description` (mutable provenance label), `sequence_data`
(the residue string). -/
structure Sequence where
  otu : String
  identifier : String
  description : String
  sequence_data : String
  deriving DecidableEq

/-- The alignment collaborator, reduced to what `swap.py` touches: its live
mutable list of sequences. -/
structure MultipleSequenceAlignment where
  sequences : List Sequence
  deriving DecidableEq

abbrev MSA := MultipleSequenceAlignment

/-- Modelled from the spec: the alignment collaborator's `otus()` returns the
set of distinct OTU identifiers present, one per sequence `otu` field
(deduplicated, first occurrence order). -/
def MultipleSequenceAlignment.otus (msa : MSA) : List String :=
  (msa.sequences.map (fun s => s.otu)).dedup

/-- `startsWithL small big`: the char list `small` is a prefix of `big`. -/
def startsWithL : List Char → List Char → Bool
  | [], _ => true
  | _ :: _, [] => false
  | a :: as, b :: bs => a == b && startsWithL as bs

/-- `substrAt small big`: `small` occurs contiguously inside `big`. -/
def substrAt : List Char → List Char → Bool
  | small, [] => small.isEmpty
  | small, b :: bs => startsWithL small (b :: bs) || substrAt small bs

/-- Python's `small in big` for strings: substring containment. -/
def pyInStr (small big : String) : Bool := substrAt small.data big.data

/-- `get_seqs_from_otus(msa, otus)` when `otus` is a collection of OTU names
(Python `in` is membership): all sequences whose `otu` is in the collection.
The Python function builds a set by scanning `msa.sequences`; we keep the
scan order. -/
def get_seqs_from_otus (msa : MSA) (otus : List String) : List Sequence :=
  msa.sequences.filter (fun seq => decide (seq.otu ∈ otus))

/-- `get_seqs_from_otus(msa, otu)` when the caller passes a single OTU
*string* (as `replace_receiver_seqs` and `cross_contaminate` do): Python `in`
on a string is substring containment, so this collects the sequences whose
`otu` is a substring of `otu`. -/
def get_seqs_from_otus_str (msa : MSA) (otu : String) : List Sequence :=
  msa.sequences.filter (fun seq => pyInStr seq.otu otu)

/-- The candidate pool of `pick_otus_randomly`: `msa.otus()` with each
excluded OTU removed (`if otu in otus_in_msa: otus_in_msa.remove(otu)`). -/
def pick_candidates (msa : MSA) (exclude : List String) : List String :=
  exclude.foldl (fun acc otu => if otu ∈ acc then acc.erase otu else acc) msa.otus

/-- `pick_otus_randomly(msa, count, exclude)`: returns the empty collection
when fewer candidates than `count` remain after exclusion, otherwise `count`
OTUs sampled without replacement from the candidates. -/
def pick_otus_randomly (msa : MSA) (count : Nat) (exclude : List String)
    (tape : Tape) : Except String (List String × Tape) :=
  let otus_in_msa := pick_candidates msa exclude
  if otus_in_msa.length < count then Except.ok ([], tape)
  else sample otus_in_msa count tape

/-- `receivers_in_msa(msa, receivers)`: assoc list from each receiver OTU to
the number of its sequences in the alignment (dict keys are unique and keep
first-insertion order, hence `dedup`). -/
def receivers_in_msa (msa : MSA) (receivers : List String) : List (String × Nat) :=
  receivers.dedup.map (fun otu => (otu, msa.sequences.countP (fun seq => seq.otu == otu)))

/-- The loop of `remove_seqs_from_otu`: `for seq in msa.sequences:
if seq.otu in otus: msa.remove_sequence(seq)`.  The list is mutated while the
list iterator walks it, so after a removal the iterator's next step lands on
the element *after* the removed one's successor: the immediate successor of a
removed element is never examined (it is kept). -/
def removeSeqsGo (otus : List String) : List Sequence → List Sequence
  | [] => []
  | [a] => if a.otu ∈ otus then [] else [a]
  | a :: b :: rest =>
    if a.otu ∈ otus then b :: removeSeqsGo otus rest
    else a :: removeSeqsGo otus (b :: rest)

/-- `remove_seqs_from_otu(msa, otus)`. -/
def remove_seqs_from_otu (msa : MSA) (otus : List String) : MSA :=
  { msa with sequences := removeSeqsGo otus msa.sequences }

/-- Loop of `randomly_assign_seqs(msa, sequences, otus)`: for each sequence,
pick one element of `otus` (`random.sample(otus, 1)[0]`; the call site passes
`set(otu)`, the set of *characters* of the receiver string, hence
`List Char`), set the description to `'{}@{}_from_{}'.format(otu,
seq.identifier, seq.otu)` and insert the updated sequence into the alignment
(`msa.add_sequence(seq)`, modelled from the spec as appending the sequence to
the collection; the `otu` field is left unchanged, as in the source). -/
def rasGo (otus : List Char) : MSA → List Sequence → Tape → Except String (MSA × Tape)
  | msa, [], tape => Except.ok (msa, tape)
  | msa, seq :: rest, tape =>
    match sample otus 1 tape with
    | Except.error e => Except.error e
    | Except.ok (picked, tape1) =>
      match picked with
      | [] => Except.error "list index out of range"
      | otu :: _ =>
        let new_description :=
          otu.toString ++ "@" ++ seq.identifier ++ "_from_" ++ seq.otu
        rasGo otus
          { msa with sequences :=
              msa.sequences ++ [{ seq with description := new_description }] }
          rest tape1

/-- `randomly_assign_seqs(msa, sequences, otus)`. -/
def randomly_assign_seqs (msa : MSA) (sequences : List Sequence)
    (otus : List Char) (tape : Tape) : Except String (MSA × Tape) :=
  rasGo otus msa sequences tape

/-- Loop of `replace_receiver_seqs` over the `receiver_count` dict, carrying
the running `swap_count` and the affected-receiver set.  The fourth component
of a successful result records, for each processed receiver, the `swap_count`
value used both for sampling that receiver's own sequences and for picking
donors (instrumentation of the loop variable, recorded right after
`swap_count += receiver_count[otu] - 1`). -/
def rrsGo (receivers : List String) :
    List (String × Nat) → MSA → Nat → List String → List (String × Nat) → Tape →
    Except String (MSA × Nat × List String × List (String × Nat) × Tape)
  | [], msa, swap_count, affected, log, tape =>
    Except.ok (msa, swap_count, affected, log, tape)
  | (otu, c) :: rest, msa, swap_count, affected, log, tape =>
    if c ≤ 1 then rrsGo receivers rest msa swap_count affected log tape
    else
      let sc := swap_count + (c - 1)
      match sample (get_seqs_from_otus_str msa otu) sc tape with
      | Except.error e => Except.error e
      | Except.ok (sampled, tape1) =>
        let msa1 : MSA :=
          { msa with sequences := sampled.foldl (fun l s => l.erase s) msa.sequences }
        match pick_otus_randomly msa1 sc receivers tape1 with
        | Except.error e => Except.error e
        | Except.ok (donors, tape2) =>
          let seqs := get_seqs_from_otus msa1 donors
          let msa2 := remove_seqs_from_otu msa1 donors
          match randomly_assign_seqs msa2 seqs otu.data.dedup tape2 with
          | Except.error e => Except.error e
          | Except.ok (msa3, tape3) =>
            rrsGo receivers rest msa3 sc (affected ++ [otu]) (log ++ [(otu, sc)]) tape3

/-- `replace_receiver_seqs(msa, receivers)`: result alignment together with
the recorded per-receiver `swap_count` values and the rest of the tape. -/
def replace_receiver_seqs (msa : MSA) (receivers : List String) (tape : Tape) :
    Except String (MSA × List (String × Nat) × Tape) :=
  match rrsGo receivers (receivers_in_msa msa receivers) msa 0 [] [] tape with
  | Except.error e => Except.error e
  | Except.ok (msa1, _, _, log, tape1) => Except.ok (msa1, log, tape1)

/-- The in-place substitutions of `add_noise`: for each (target, source) pair
in draw order, overwrite the character at the target index with the current
character at the source index. -/
def applySubs : List Char → List (Nat × Nat) → List Char
  | l, [] => l
  | l, (p, r) :: rest => applySubs (l.set p (l.getD r 'A')) rest

/-- `add_noise(sequence, max_substitutions)`: a substitution count from
`randint(1, max_substitutions)`, target and source positions each sampled
without replacement from `range(1, len(sequence))`, applied in order. -/
def add_noise (sequence : String) (max_substitutions : Nat) (tape : Tape) :
    Except String (String × Nat × Tape) :=
  match randint 1 max_substitutions tape with
  | Except.error e => Except.error e
  | Except.ok (substitutions, tape1) =>
    match sample (List.range' 1 (sequence.length - 1)) substitutions tape1 with
    | Except.error e => Except.error e
    | Except.ok (positions, tape2) =>
      match sample (List.range' 1 (sequence.length - 1)) substitutions tape2 with
      | Except.error e => Except.error e
      | Except.ok (replacements, tape3) =>
        Except.ok
          (String.mk (applySubs sequence.data (positions.zip replacements)),
            substitutions, tape3)

/-- One contamination event of `cross_contaminate` (the body executed when
the likelihood test passes for a receiver `otu`): copy a random sequence of
the receiver with noise, pick a contaminant sequence uniformly from all
current sequences, insert the noised copy and remove the contaminant.
`msa.add_sequence(None, description, data)` is modelled from the spec: it
constructs and inserts a new `Sequence`; per the spec the duplicate is
assigned to the contaminant's OTU and its identifier encodes the lineage. -/
def contamination_event (msa : MSA) (otu : String) (max_substitutions : Nat)
    (tape : Tape) : Except String (MSA × Tape) :=
  match sample (get_seqs_from_otus_str msa otu) 1 tape with
  | Except.error e => Except.error e
  | Except.ok (os, tape1) =>
    match os with
    | [] => Except.error "list index out of range"
    | original_seq :: _ =>
      match add_noise original_seq.sequence_data max_substitutions tape1 with
      | Except.error e => Except.error e
      | Except.ok (contaminated_seq, substitutions, tape2) =>
        match sample msa.sequences 1 tape2 with
        | Except.error e => Except.error e
        | Except.ok (cs, tape3) =>
          match cs with
          | [] => Except.error "list index out of range"
          | contaminant :: _ =>
            let contaminant_identifier :=
              original_seq.identifier ++ "_contaminated_" ++ otu ++ "_" ++
                toString substitutions ++ "_subs"
            let contaminant_description :=
              contaminant.otu ++ "@" ++ contaminant_identifier
            let newSeq : Sequence :=
              { otu := contaminant.otu, identifier := contaminant_identifier,
                description := contaminant_description,
                sequence_data := contaminated_seq }
            Except.ok
              ({ msa with sequences := (msa.sequences ++ [newSeq]).erase contaminant },
                tape3)

/-- Loop of `cross_contaminate`: for each receiver with a nonzero initial
count, skip when `random.randrange(100) > likelihood * 100`, otherwise run
one contamination event and count it. -/
def ccGo (likelihood : ℚ) (max_substitutions : Nat) :
    List (String × Nat) → MSA → Nat → Tape → Except String (MSA × Nat × Tape)
  | [], msa, count, tape => Except.ok (msa, count, tape)
  | (otu, c) :: rest, msa, count, tape =>
    if c = 0 then ccGo likelihood max_substitutions rest msa count tape
    else
      let (d, tape1) := nextDraw tape
      if ((d % 100 : Nat) : ℚ) > likelihood * 100 then
        ccGo likelihood max_substitutions rest msa count tape1
      else
        match contamination_event msa otu max_substitutions tape1 with
        | Except.error e => Except.error e
        | Except.ok (msa1, tape2) =>
          ccGo likelihood max_substitutions rest msa1 (count + 1) tape2

/-- `cross_contaminate(msa, receivers, likelihood, max_substitutions)`:
result alignment, number of contamination events, rest of the tape.  The
Python `float` likelihood is modelled as a rational. -/
def cross_contaminate (msa : MSA) (receivers : List String) (likelihood : ℚ)
    (max_substitutions : Nat) (tape : Tape) : Except String (MSA × Nat × Tape) :=
  ccGo likelihood max_substitutions (receivers_in_msa msa receivers) msa 0 tape

/-- Did the call succeed? -/
def exOk {ε α : Type} : Except ε α → Bool
  | Except.ok _ => true
  | Except.error _ => false

/-- The recorded per-receiver `swap_count` values of a successful
`replace_receiver_seqs` run. -/
def rrsLog : Except String (MSA × List (String × Nat) × Tape) → List (String × Nat)
  | Except.ok (_, log, _) => log
  | Except.error _ => []

/-- The alignment of a successful `replace_receiver_seqs` run. -/
def rrsMSA : Except String (MSA × List (String × Nat) × Tape) → MSA
  | Except.ok (m, _, _) => m
  | Except.error _ => ⟨[]⟩

/-- The alignment of a successful `contamination_event`. -/
def eventMSA : Except String (MSA × Tape) → MSA
  | Except.ok (m, _) => m
  | Except.error _ => ⟨[]⟩

/-- The event count of a successful `cross_contaminate` run. -/
def ccCount : Except String (MSA × Nat × Tape) → Nat
  | Except.ok (_, n, _) => n
  | Except.error _ => 0

/-- The alignment of a successful `cross_contaminate` run. -/
def ccMSA : Except String (MSA × Nat × Tape) → MSA
  | Except.ok (m, _, _) => m
  | Except.error _ => ⟨[]⟩

/-- The noised string of a successful `add_noise` call. -/
def noiseStr : Except String (String × Nat × Tape) → String
  | Except.ok (s, _, _) => s
  | Except.error _ => ""

/-- The sampled OTU list of a `pick_otus_randomly` result. -/
def pickRes : Except String (List String × Tape) → List String
  | Except.ok (l, _) => l
  | Except.error _ => []

/-- The cumulative-surplus schedule the spec describes: walking the receiver
counts in order, a receiver with count `c > 1` is processed with the running
total of all surpluses (`c - 1`) accumulated so far, itself included. -/
def cumLog : Nat → List (String × Nat) → List (String × Nat)
  | _, [] => []
  | acc, (otu, c) :: rest =>
    if c ≤ 1 then cumLog acc rest
    else (otu, acc + (c - 1)) :: cumLog (acc + (c - 1)) rest

/-! ### Basic properties of the sampling primitives -/

lemma nextDraw_snd (tape : Tape) : (nextDraw tape).2 = tape.drop 1 := by
  cases tape <;> rfl

lemma sampleGo_mem {α : Type} :
    ∀ (k : Nat) (l : List α) (tape : Tape) (x : α),
      x ∈ (sampleGo l k tape).1 → x ∈ l := by
  intro k
  induction k with
  | zero => intro l tape x hx; simp [sampleGo] at hx
  | succ k ih =>
    intro l tape x hx
    by_cases h : l.length = 0
    · simp [sampleGo, h] at hx
    · simp only [sampleGo, dif_neg h] at hx
      rcases List.mem_cons.1 hx with hx | hx
      · exact hx ▸ List.get_mem _ _ _
      · exact List.eraseIdx_subset _ _ (ih _ _ _ hx)

lemma sampleGo_length {α : Type} :
    ∀ (k : Nat) (l : List α) (tape : Tape), k ≤ l.length →
      (sampleGo l k tape).1.length = k := by
  intro k
  induction k with
  | zero => intro l tape _; simp [sampleGo]
  | succ k ih =>
    intro l tape hk
    have h : l.length ≠ 0 := by omega
    have hlt : (nextDraw tape).1 % l.length < l.length :=
      Nat.mod_lt _ (Nat.pos_of_ne_zero h)
    simp only [sampleGo, dif_neg h, List.length_cons]
    rw [ih _ _ (by rw [List.length_eraseIdx_of_lt hlt]; omega)]

lemma get_not_mem_eraseIdx {α : Type} [DecidableEq α] :
    ∀ (l : List α), l.Nodup → ∀ (i : Nat) (hi : i < l.length),
      l.get ⟨i, hi⟩ ∉ l.eraseIdx i := by
  intro l
  induction l with
  | nil => intro _ i hi; simp at hi
  | cons a as ih =>
    intro hnd i hi
    rcases List.nodup_cons.1 hnd with ⟨hna, hnd'⟩
    cases i with
    | zero => simpa using hna
    | succ j =>
      have hj : j < as.length := by simpa using hi
      simp only [List.get, List.eraseIdx_cons_succ, List.mem_cons]
      rintro (hx | hx)
      · exact hna (hx ▸ List.get_mem _ _ _)
      · exact ih hnd' j hj hx

lemma sampleGo_nodup {α : Type} [DecidableEq α] :
    ∀ (k : Nat) (l : List α) (tape : Tape), l.Nodup →
      (sampleGo l k tape).1.Nodup := by
  intro k
  induction k with
  | zero => intro l tape _; simp [sampleGo]
  | succ k ih =>
    intro l tape hnd
    by_cases h : l.length = 0
    · simp [sampleGo, h]
    · simp only [sampleGo, dif_neg h, List.nodup_cons]
      constructor
      · intro hmem
        exact get_not_mem_eraseIdx l hnd _ _ (sampleGo_mem _ _ _ _ hmem)
      · exact ih _ _ ((List.eraseIdx_sublist _ _).nodup hnd)

lemma sample_eq_ok {α : Type} (l : List α) (k : Nat) (tape : Tape)
    (h : k ≤ l.length) : sample l k tape = Except.ok (sampleGo l k tape) := by
  simp [sample, Nat.not_lt.2 h]

lemma sample_eq_error {α : Type} (l : List α) (k : Nat) (tape : Tape)
    (h : l.length < k) :
    sample l k tape = Except.error "Sample larger than population or is negative" := by
  simp [sample, h]

lemma sampleGo_replicate {α : Type} (a : α) :
    ∀ (k n : Nat) (tape : Tape), k ≤ n →
      sampleGo (List.replicate n a) k tape = (List.replicate k a, tape.drop k) := by
  intro k
  induction k with
  | zero => intro n tape _; simp [sampleGo]
  | succ k ih =>
    intro n tape hk
    have h : (List.replicate n a).length ≠ 0 := by simp; omega
    have hlt : (nextDraw tape).1 % (List.replicate n a).length < n := by
      simpa using Nat.mod_lt _ (Nat.pos_of_ne_zero h)
    simp only [sampleGo, dif_neg h]
    rw [List.eraseIdx_replicate, if_pos hlt, ih (n - 1) _ (by omega)]
    simp [List.getElem_replicate, List.replicate_succ, nextDraw_snd,
      List.drop_drop, Nat.add_comm]

/-! ### Erasing and filtering -/

lemma erase_filter_of_neg {α : Type} [DecidableEq α] (p : α → Bool) (x : α)
    (hx : p x = false) : ∀ l : List α, (l.erase x).filter p = l.filter p := by
  intro l
  induction l with
  | nil => rfl
  | cons a as ih =>
    by_cases hax : a = x
    · subst hax
      rw [List.erase_cons_head]
      simp [List.filter_cons, hx]
    · rw [List.erase_cons_tail (by simpa using hax)]
      simp only [List.filter_cons, ih]

lemma foldl_erase_filter {α : Type} [DecidableEq α] (p : α → Bool) :
    ∀ (s l : List α), (∀ x ∈ s, p x = false) →
      ((s.foldl (fun acc x => acc.erase x) l).filter p) = l.filter p := by
  intro s
  induction s with
  | nil => intro l _; rfl
  | cons a as ih =>
    intro l hs
    simp only [List.foldl_cons]
    rw [ih _ (fun x hx => hs x (List.mem_cons_of_mem _ hx)),
      erase_filter_of_neg p a (hs a (List.mem_cons_self _ _))]

lemma foldl_erase_subset {α : Type} [DecidableEq α] :
    ∀ (s l : List α) (y : α), y ∈ s.foldl (fun acc x => acc.erase x) l → y ∈ l := by
  intro s
  induction s with
  | nil => intro l y hy; simpa using hy
  | cons a as ih =>
    intro l y hy
    simp only [List.foldl_cons] at hy
    exact List.mem_of_mem_erase (ih _ _ hy)

/-- Elements surviving the exclusion loop of `pick_otus_randomly` come from
the original pool, avoid every excluded OTU, and stay duplicate-free. -/
lemma foldl_excl_spec :
    ∀ (exclude acc : List String), acc.Nodup →
      (exclude.foldl (fun acc otu => if otu ∈ acc then acc.erase otu else acc) acc).Nodup ∧
      ∀ x ∈ exclude.foldl (fun acc otu => if otu ∈ acc then acc.erase otu else acc) acc,
        x ∈ acc ∧ x ∉ exclude := by
  intro exclude
  induction exclude with
  | nil => intro acc h; exact ⟨h, fun x hx => ⟨hx, by simp⟩⟩
  | cons e es ih =>
    intro acc hacc
    simp only [List.foldl_cons]
    by_cases he : e ∈ acc
    · rw [if_pos he]
      obtain ⟨hnd, hmem⟩ := ih (acc.erase e) (hacc.erase e)
      refine ⟨hnd, fun x hx => ?_⟩
      obtain ⟨hx1, hx2⟩ := hmem x hx
      obtain ⟨hne, hxa⟩ := (hacc.mem_erase_iff).1 hx1
      exact ⟨hxa, by simp [hne, hx2]⟩
    · rw [if_neg he]
      obtain ⟨hnd, hmem⟩ := ih acc hacc
      refine ⟨hnd, fun x hx => ?_⟩
      obtain ⟨hx1, hx2⟩ := hmem x hx
      refine ⟨hx1, by simp [hx2]; rintro rfl; exact he hx1⟩

lemma pick_candidates_nodup (msa : MSA) (exclude : List String) :
    (pick_candidates msa exclude).Nodup :=
  (foldl_excl_spec exclude msa.otus (List.nodup_dedup _)).1

lemma mem_pick_candidates {msa : MSA} {exclude : List String} {x : String}
    (hx : x ∈ pick_candidates msa exclude) : x ∈ msa.otus ∧ x ∉ exclude :=
  (foldl_excl_spec exclude msa.otus (List.nodup_dedup _)).2 x hx

lemma removeSeqsGo_nil : ∀ l : List Sequence, removeSeqsGo [] l = l := by
  intro l
  induction l with
  | nil => rfl
  | cons a as ih =>
    cases as with
    | nil => simp [removeSeqsGo]
    | cons b bs => simp only [removeSeqsGo, List.not_mem_nil, if_false, ih]

/-! ### Properties of the noise substitutions -/

lemma applySubs_length : ∀ (prs : List (Nat × Nat)) (l : List Char),
    (applySubs l prs).length = l.length := by
  intro prs
  induction prs with
  | nil => intro l; rfl
  | cons pr rest ih =>
    intro l
    obtain ⟨p, r⟩ := pr
    rw [applySubs, ih, List.length_set]

lemma head_set_of_pos (l : List Char) (p : Nat) (x : Char) (hp : 1 ≤ p) :
    (l.set p x).head? = l.head? := by
  cases l with
  | nil => rfl
  | cons a as =>
    cases p with
    | zero => omega
    | succ q => rfl

lemma applySubs_head : ∀ (prs : List (Nat × Nat)) (l : List Char),
    (∀ pr ∈ prs, 1 ≤ pr.1) → (applySubs l prs).head? = l.head? := by
  intro prs
  induction prs with
  | nil => intro l _; rfl
  | cons pr rest ih =>
    intro l h
    obtain ⟨p, r⟩ := pr
    rw [applySubs, ih _ (fun x hx => h x (List.mem_cons_of_mem _ hx)),
      head_set_of_pos _ _ _ (h (p, r) (List.mem_cons_self _ _))]

/-! ### The swap loop's cumulative `swap_count` -/

lemma rrsGo_log (receivers : List String) :
    ∀ (pairs : List (String × Nat)) (msa : MSA) (sc : Nat) (aff : List String)
      (log : List (String × Nat)) (tape : Tape)
      (out : MSA × Nat × List String × List (String × Nat) × Tape),
      rrsGo receivers pairs msa sc aff log tape = Except.ok out →
      out.2.2.2.1 = log ++ cumLog sc pairs := by
  intro pairs
  induction pairs with
  | nil =>
    intro msa sc aff log tape out h
    simp only [rrsGo, Except.ok.injEq] at h
    rw [← h]
    simp [cumLog]
  | cons pc rest ih =>
    intro msa sc aff log tape out h
    obtain ⟨otu, c⟩ := pc
    by_cases hc : c ≤ 1
    · simp only [rrsGo, if_pos hc] at h
      simp only [cumLog, if_pos hc]
      exact ih _ _ _ _ _ _ h
    · simp only [rrsGo, if_neg hc] at h
      simp only [cumLog, if_neg hc]
      cases hs : sample (get_seqs_from_otus_str msa otu) (sc + (c - 1)) tape with
      | error e => rw [hs] at h; simp at h
      | ok v =>
        obtain ⟨sampled, tape1⟩ := v
        rw [hs] at h
        simp only at h
        cases hp : pick_otus_randomly
            ⟨sampled.foldl (fun l s => l.erase s) msa.sequences⟩
            (sc + (c - 1)) receivers tape1 with
        | error e => rw [hp] at h; simp at h
        | ok w =>
          obtain ⟨donors, tape2⟩ := w
          rw [hp] at h
          simp only at h
          cases hr : randomly_assign_seqs
              (remove_seqs_from_otu
                ⟨sampled.foldl (fun l s => l.erase s) msa.sequences⟩ donors)
              (get_seqs_from_otus
                ⟨sampled.foldl (fun l s => l.erase s) msa.sequences⟩ donors)
              otu.data.dedup tape2 with
          | error e => rw [hr] at h; simp at h
          | ok u =>
            obtain ⟨msa3, tape3⟩ := u
            rw [hr] at h
            simp only at h
            have := ih _ _ _ _ _ _ h
            simpa [List.append_assoc] using this

/-! ### Concrete alignments used as claim instances -/

def sAB1 : Sequence := ⟨"AB", "ab1", "AB@ab1", "AAAA"⟩

def sAB2 : Sequence := ⟨"AB", "ab2", "AB@ab2", "CCCC"⟩

def sD1 : Sequence := ⟨"D", "d1", "D@d1", "GGGG"⟩

/-- Receiver OTU "AB" (two sequences) and one single-sequence donor OTU "D". -/
def msaC1 : MSA := ⟨[sAB1, sAB2, sD1]⟩

def sA1 : Sequence := ⟨"A", "a1", "A@a1", "ACGT"⟩

def sB1 : Sequence := ⟨"B", "b1", "B@b1", "TTTT"⟩

/-- One receiver OTU "A" and one other OTU "B". -/
def msaC4 : MSA := ⟨[sA1, sB1]⟩

def sDX : Sequence := ⟨"D", "dx", "D@dx", "AAAA"⟩

def sDY : Sequence := ⟨"D", "dy", "D@dy", "CCCC"⟩

/-- Two adjacent sequences of the same donor OTU "D". -/
def msaC6 : MSA := ⟨[sDX, sDY]⟩

/-- C1: the claim says each collected donor sequence is relabeled
`{receiver}@{original_identifier}_from_{original_otu}` with `receiver` the
full receiver OTU string.  The code passes `set(otu)` — the set of the
*characters* of the receiver string — to `randomly_assign_seqs`, so for the
receiver "AB" the donor sequence d1 (from OTU "D") is relabeled
"A@d1_from_D" (or "B@d1_from_D"), never "AB@d1_from_D".  This evaluation at
the failing input shows the label produced by the code. -/
theorem replace_receiver_seqs_label_char :
    (rrsMSA (replace_receiver_seqs msaC1 ["AB"] [0, 0, 0])).sequences.map
        (fun s => s.description) = ["AB@ab2", "A@d1_from_D"] := by
  decide

/-- C4: the claim says `cross_contaminate` with likelihood 0.0 produces zero
events and leaves the alignment unchanged regardless of the random state.
The skip condition is `randrange(100) > likelihood * 100`, so the draw 0 is
*not* skipped: with likelihood 0 and first draw 0 the code performs one
contamination event and changes the alignment. -/
theorem cross_contaminate_zero_likelihood :
    ccCount (cross_contaminate msaC4 ["A"] 0 1 [0, 0, 0, 0, 0, 0]) = 1 ∧
    ccMSA (cross_contaminate msaC4 ["A"] 0 1 [0, 0, 0, 0, 0, 0]) ≠ msaC4 := by
  have hev : contamination_event msaC4 "A" 1 [0, 0, 0, 0, 0] =
      Except.ok
        (⟨[sB1, ⟨"A", "a1_contaminated_A_1_subs", "A@a1_contaminated_A_1_subs",
          "ACGT"⟩]⟩, []) := by
    rfl
  have hrun : cross_contaminate msaC4 ["A"] 0 1 [0, 0, 0, 0, 0, 0] =
      Except.ok
        (⟨[sB1, ⟨"A", "a1_contaminated_A_1_subs", "A@a1_contaminated_A_1_subs",
          "ACGT"⟩]⟩, 1, []) := by
    unfold cross_contaminate
    rw [show receivers_in_msa msaC4 ["A"] = [("A", 1)] from by decide]
    simp only [ccGo, nextDraw]
    rw [if_neg (by decide : ¬ (1 = 0))]
    split
    · next hcond => exfalso; revert hcond; norm_num
    · next hcond =>
        rw [hev]
  rw [hrun]
  exact ⟨rfl, by decide⟩

/-- C6: the claim says `remove_seqs_from_otu` removes every sequence of the
given OTUs.  The loop removes from `msa.sequences` while iterating it, so
Python's list iterator skips the element following each removal: with two
adjacent sequences of donor OTU "D", the second one survives. -/
theorem remove_seqs_from_otu_skips :
    (remove_seqs_from_otu msaC6 ["D"]).sequences = [sDY] ∧ sDY.otu = "D" := by
  constructor
  · decide
  · rfl

/-- C8: whenever `add_noise` succeeds, the returned string has the same
length as the input string (substitutions only, no insertions/deletions). -/
theorem add_noise_length (s : String) (m : Nat) (tape : Tape)
    (h : exOk (add_noise s m tape) = true) :
    (noiseStr (add_noise s m tape)).length = s.length := by
  rcases hE : add_noise s m tape with e | v
  · rw [hE] at h; simp [exOk] at h
  · obtain ⟨s', n', t'⟩ := v
    show s'.length = s.length
    unfold add_noise at hE
    split at hE
    · exact absurd hE (by simp)
    · split at hE
      · exact absurd hE (by simp)
      · split at hE
        · exact absurd hE (by simp)
        · simp only [Except.ok.injEq, Prod.mk.injEq] at hE
          rw [← hE.1]
          exact applySubs_length _ _

/-- C8 witness: a successful concrete run ("ACGT" becomes "ACCT"). -/
theorem add_noise_length_witness :
    exOk (add_noise "ACGT" 1 [0, 1, 0]) = true ∧
    (noiseStr (add_noise "ACGT" 1 [0, 1, 0])).length = ("ACGT" : String).length :=
  ⟨by decide, add_noise_length "ACGT" 1 [0, 1, 0] (by decide)⟩

/-- C9: whenever `add_noise` succeeds, position 0 of the result equals
position 0 of the input: both target and source positions are sampled from
`range(1, len(sequence))`, so index 0 is never overwritten. -/
theorem add_noise_preserves_head (s : String) (m : Nat) (tape : Tape)
    (h : exOk (add_noise s m tape) = true) :
    (noiseStr (add_noise s m tape)).data.head? = s.data.head? := by
  rcases hE : add_noise s m tape with e | v
  · rw [hE] at h; simp [exOk] at h
  · obtain ⟨s', n', t'⟩ := v
    show s'.data.head? = s.data.head?
    unfold add_noise at hE
    split at hE
    · exact absurd hE (by simp)
    · rename_i subs tape1 hr
      split at hE
      · exact absurd hE (by simp)
      · rename_i positions tape2 hp
        split at hE
        · exact absurd hE (by simp)
        · rename_i reps tape3 hq
          simp only [Except.ok.injEq, Prod.mk.injEq] at hE
          rw [← hE.1]
          show (applySubs s.data (positions.zip reps)).head? = s.data.head?
          have hpos : ∀ x ∈ positions, 1 ≤ x := by
            intro x hx
            unfold sample at hp
            split at hp
            · exact absurd hp (by simp)
            · rw [Except.ok.injEq] at hp
              have hx' : x ∈ (sampleGo (List.range' 1 (s.length - 1)) subs tape1).1 := by
                rw [hp]; exact hx
              have hmem := sampleGo_mem _ _ _ _ hx'
              rcases List.mem_range'.1 hmem with ⟨i, _, rfl⟩
              omega
          exact applySubs_head _ _ (fun pr hpr => hpos pr.1 (List.of_mem_zip hpr).1)

/-- C9 witness: a successful concrete run ("ACGT" becomes "ACCT", both
starting with the character at position 0 unchanged). -/
theorem add_noise_preserves_head_witness :
    exOk (add_noise "ACGT" 1 [0, 1, 0]) = true ∧
    (noiseStr (add_noise "ACGT" 1 [0, 1, 0])).data.head? = ("ACGT" : String).data.head? :=
  ⟨by decide, add_noise_preserves_head "ACGT" 1 [0, 1, 0] (by decide)⟩

/-- C10: with `max_substitutions ≥ 1` and `len(sequence) ≥ 2`, whenever the
drawn substitution count `1 + d % max_substitutions` exceeds
`len(sequence) - 1`, sampling that many distinct positions from
`range(1, len(sequence))` is impossible and `add_noise` fails with an error:
totality needs the stricter precondition `max_substitutions ≤ len - 1`. -/
theorem add_noise_insufficient (s : String) (m d : Nat) (tape : Tape)
    (h1 : 1 ≤ m) (_h2 : 2 ≤ s.length) (h3 : s.length - 1 < 1 + d % m) :
    exOk (add_noise s m (d :: tape)) = false := by
  unfold add_noise randint
  rw [if_neg (by omega)]
  simp only [nextDraw]
  have hm : m - 1 + 1 = m := by omega
  rw [hm]
  rw [sample_eq_error _ _ _ (by simpa [List.length_range'] using h3)]
  rfl

/-- C10 witness: `add_noise "AC" 2` with first draw 1 draws 2 substitutions
but only one position (index 1) is available, so the call fails. -/
theorem add_noise_insufficient_witness :
    1 ≤ 2 ∧ 2 ≤ ("AC" : String).length ∧
    ("AC" : String).length - 1 < 1 + 1 % 2 ∧
    exOk (add_noise "AC" 2 [1]) = false :=
  ⟨by decide, by decide, by decide,
    add_noise_insufficient "AC" 2 1 [] (by decide) (by decide) (by decide)⟩

/-- C7: `pick_otus_randomly` returns the empty collection — not a partial
one, and not an error — whenever `count` exceeds the candidates remaining
after exclusion; otherwise it returns exactly `count` distinct OTUs, all
candidates and none excluded. -/
theorem pick_otus_randomly_spec (msa : MSA) (count : Nat) (exclude : List String)
    (tape : Tape) :
    ((pick_candidates msa exclude).length < count →
      pick_otus_randomly msa count exclude tape = Except.ok ([], tape)) ∧
    (count ≤ (pick_candidates msa exclude).length →
      exOk (pick_otus_randomly msa count exclude tape) = true ∧
      (pickRes (pick_otus_randomly msa count exclude tape)).length = count ∧
      (pickRes (pick_otus_randomly msa count exclude tape)).Nodup ∧
      ∀ x ∈ pickRes (pick_otus_randomly msa count exclude tape),
        x ∈ pick_candidates msa exclude ∧ x ∉ exclude) := by
  constructor
  · intro h
    unfold pick_otus_randomly
    rw [if_pos h]
  · intro h
    unfold pick_otus_randomly
    rw [if_neg (Nat.not_lt.2 h), sample_eq_ok _ _ _ h]
    refine ⟨rfl, ?_, ?_, ?_⟩
    · exact sampleGo_length _ _ _ h
    · exact sampleGo_nodup count _ tape (pick_candidates_nodup msa exclude)
    · intro x hx
      have hmem : x ∈ pick_candidates msa exclude := sampleGo_mem _ _ _ _ hx
      exact ⟨hmem, (mem_pick_candidates hmem).2⟩

/-- Alignment with three OTUs "X", "Y", "Z", each one sequence. -/
def msaW7 : MSA := ⟨[⟨"X", "x", "", "A"⟩, ⟨"Y", "y", "", "A"⟩, ⟨"Z", "z", "", "A"⟩]⟩

/-- C7 witness: with candidates {"X", "Y"} after excluding "Z", a pick of 2
succeeds and returns 2 OTUs. -/
theorem pick_otus_randomly_spec_witness :
    2 ≤ (pick_candidates msaW7 ["Z"]).length ∧
    exOk (pick_otus_randomly msaW7 2 ["Z"] [0, 0]) = true ∧
    (pickRes (pick_otus_randomly msaW7 2 ["Z"] [0, 0])).length = 2 :=
  ⟨by decide, ((pick_otus_randomly_spec msaW7 2 ["Z"] [0, 0]).2 (by decide)).1,
    ((pick_otus_randomly_spec msaW7 2 ["Z"] [0, 0]).2 (by decide)).2.1⟩

/-- C2: in any successful `replace_receiver_seqs` run, the `swap_count` used
when processing each receiver OTU (both as the number of that receiver's own
sequences sampled and removed, and as the donor-selection count passed to
`pick_otus_randomly`) equals the cumulative surplus — the sum of
`count - 1` over all receivers with `count > 1` processed so far in the run —
not just the current receiver's own surplus. -/
theorem replace_receiver_seqs_cumulative (msa : MSA) (receivers : List String)
    (tape : Tape) (h : exOk (replace_receiver_seqs msa receivers tape) = true) :
    rrsLog (replace_receiver_seqs msa receivers tape) =
      cumLog 0 (receivers_in_msa msa receivers) := by
  unfold replace_receiver_seqs at h ⊢
  cases hg : rrsGo receivers (receivers_in_msa msa receivers) msa 0 [] [] tape with
  | error e => rw [hg] at h; simp [exOk] at h
  | ok out =>
    obtain ⟨m1, sc1, a1, log1, t1⟩ := out
    show log1 = cumLog 0 (receivers_in_msa msa receivers)
    simpa using rrsGo_log receivers _ msa 0 [] [] tape _ hg

/-- Alignment for the C2 witness: receivers "R1" and "R2" with two sequences
each, three single-sequence donor OTUs. -/
def msaW2 : MSA :=
  ⟨[⟨"R1", "r1a", "", "AAAA"⟩, ⟨"R1", "r1b", "", "AAAA"⟩,
    ⟨"R2", "r2a", "", "AAAA"⟩, ⟨"R2", "r2b", "", "AAAA"⟩,
    ⟨"D1", "d1", "", "AAAA"⟩, ⟨"D2", "d2", "", "AAAA"⟩,
    ⟨"D3", "d3", "", "AAAA"⟩]⟩

/-- C2 witness: a successful concrete run; the recorded counts are the
cumulative surpluses (1 for "R1", then 1 + 1 = 2 for "R2"). -/
theorem replace_receiver_seqs_cumulative_witness :
    exOk (replace_receiver_seqs msaW2 ["R1", "R2"] [0, 0, 0, 0, 0, 0, 0, 0, 0, 0]) = true ∧
    rrsLog (replace_receiver_seqs msaW2 ["R1", "R2"] [0, 0, 0, 0, 0, 0, 0, 0, 0, 0]) =
      cumLog 0 (receivers_in_msa msaW2 ["R1", "R2"]) :=
  ⟨by decide,
    replace_receiver_seqs_cumulative msaW2 ["R1", "R2"]
      [0, 0, 0, 0, 0, 0, 0, 0, 0, 0] (by decide)⟩

/-- C5: a single `cross_contaminate` contamination event adds exactly one
synthesized sequence and removes exactly one existing sequence — the sampled
contaminant — so the alignment's total sequence count is unchanged. -/
theorem contamination_event_conserves (msa : MSA) (otu : String) (m : Nat)
    (tape : Tape) (h : exOk (contamination_event msa otu m tape) = true) :
    (eventMSA (contamination_event msa otu m tape)).sequences.length =
      msa.sequences.length ∧
    ∃ newSeq contaminant, contaminant ∈ msa.sequences ∧
      (eventMSA (contamination_event msa otu m tape)).sequences =
        (msa.sequences ++ [newSeq]).erase contaminant := by
  rcases hE : contamination_event msa otu m tape with e | v
  · rw [hE] at h; simp [exOk] at h
  · obtain ⟨msa', t'⟩ := v
    have hred : eventMSA (Except.ok (msa', t')) = msa' := rfl
    rw [hred]
    unfold contamination_event at hE
    split at hE
    · exact absurd hE (by simp)
    · rename_i os tape1 hs1
      split at hE
      · exact absurd hE (by simp)
      · rename_i original orest
        split at hE
        · exact absurd hE (by simp)
        · rename_i cdata subs tape2 hn
          split at hE
          · exact absurd hE (by simp)
          · rename_i cs tape3 hs3
            split at hE
            · exact absurd hE (by simp)
            · rename_i contaminant crest
              simp only [Except.ok.injEq, Prod.mk.injEq] at hE
              obtain ⟨h1, _⟩ := hE
              have h1' : msa'.sequences =
                  (msa.sequences ++
                    [(⟨contaminant.otu,
                      original.identifier ++ "_contaminated_" ++ otu ++ "_" ++
                        toString subs ++ "_subs",
                      contaminant.otu ++ "@" ++
                        (original.identifier ++ "_contaminated_" ++ otu ++ "_" ++
                          toString subs ++ "_subs"),
                      cdata⟩ : Sequence)]).erase contaminant := by
                rw [← h1]
              have hcm : contaminant ∈ msa.sequences := by
                unfold sample at hs3
                split at hs3
                · exact absurd hs3 (by simp)
                · rw [Except.ok.injEq] at hs3
                  have hmem : contaminant ∈ (sampleGo msa.sequences 1 tape2).1 := by
                    rw [hs3]; exact List.mem_cons_self _ _
                  exact sampleGo_mem _ _ _ _ hmem
              constructor
              · rw [h1', List.length_erase_of_mem (List.mem_append_left _ hcm)]
                simp
              · exact ⟨(⟨contaminant.otu,
                  original.identifier ++ "_contaminated_" ++ otu ++ "_" ++
                    toString subs ++ "_subs",
                  contaminant.otu ++ "@" ++
                    (original.identifier ++ "_contaminated_" ++ otu ++ "_" ++
                      toString subs ++ "_subs"),
                  cdata⟩ : Sequence), contaminant, hcm, h1'⟩

/-- C5 witness: a successful concrete event on a two-sequence alignment
keeps the sequence count at 2. -/
theorem contamination_event_conserves_witness :
    exOk (contamination_event msaC4 "A" 1 [0, 0, 0, 0, 0]) = true ∧
    (eventMSA (contamination_event msaC4 "A" 1 [0, 0, 0, 0, 0])).sequences.length =
      msaC4.sequences.length :=
  ⟨by decide, (contamination_event_conserves msaC4 "A" 1 [0, 0, 0, 0, 0] (by decide)).1⟩

def seqRA : Sequence := ⟨"RA", "ra", "RA@ra", "AAAA"⟩

def seqRB1 : Sequence := ⟨"RB", "rb1", "RB@rb1", "CCCC"⟩

def seqRB2 : Sequence := ⟨"RB", "rb2", "RB@rb2", "GGGG"⟩

/-- Receiver "RA" with three (identical) sequences and receiver "RB" with
two; no other OTU is present. -/
def msaC3 : MSA := ⟨[seqRA, seqRA, seqRA, seqRB1, seqRB2]⟩

/-- C3: on this alignment, `replace_receiver_seqs` fails for *every* state of
the random source: processing "RA" (count 3) sets the cumulative
`swap_count` to 2, then "RB" raises it to 3, and sampling 3 sequences
without replacement from "RB"'s 2 sequences violates the sampling
precondition, so the call errors out instead of performing the swap. -/
theorem replace_receiver_seqs_overflow (tape : Tape) :
    exOk (replace_receiver_seqs msaC3 ["RA", "RB"] tape) = false := by
  have hsam : sample (get_seqs_from_otus_str msaC3 "RA") (0 + (3 - 1)) tape
      = Except.ok (List.replicate 2 seqRA, tape.drop 2) := by
    show sample (List.replicate 3 seqRA) 2 tape = _
    rw [sample_eq_ok _ _ _ (by simp)]
    rw [sampleGo_replicate seqRA 2 3 tape (by omega)]
  unfold replace_receiver_seqs
  rw [show receivers_in_msa msaC3 ["RA", "RB"] = [("RA", 3), ("RB", 2)] from by decide]
  simp only [rrsGo]
  rw [if_neg (by decide : ¬ (3 ≤ 1))]
  rw [hsam]
  rfl

end SeqExchange
